import Mathlib

/-!
Verification development for the whisper-web transcript synchronization and
editing logic.  Times (seconds) and playback rates are modelled as rationals;
the source uses JavaScript numbers only for comparisons and additions of
quarter-step values, which the rationals reproduce exactly.  A chunk timestamp
is a pair of a start time and an optional end time (null in the source).
-/

namespace WhisperWeb

/-- A raw chunk as delivered by the recognition engine:
`{ text, timestamp: [start, end|null] }`. -/
structure RawChunk where
  text : String
  timestamp : ℚ × Option ℚ
deriving DecidableEq, Repr

/-- Model of `TranscriberChunk` from useTranscriber.ts: a raw chunk plus the
`isEdited` flag (absent in the source type is normalized to `false` by the
handlers, so a `Bool` field is faithful for every state the handlers build). -/
structure TranscriberChunk where
  text : String
  timestamp : ℚ × Option ℚ
  isEdited : Bool
deriving DecidableEq, Repr

/-- Start time of a chunk (`timestamp[0]`). -/
def TranscriberChunk.start (c : TranscriberChunk) : ℚ := c.timestamp.1

/-- Optional end time of a chunk (`timestamp[1]`, null modelled as `none`). -/
def TranscriberChunk.stop (c : TranscriberChunk) : Option ℚ := c.timestamp.2

/-- Model of `TranscriberData` from useTranscriber.ts: the session state holding the
segment timeline. -/
structure TranscriberData where
  chunks : List TranscriberChunk
  text : String
  isBusy : Bool
  isModelLoading : Bool
  error : Option String
deriving DecidableEq, Repr

/-- The scan loop of `getCurrentUtteranceIndex` (part_000 lines 146-159):
walk the chunk list in order; for the chunk at the head, the effective end is
`timestamp[1]` when non-null, otherwise the next chunk`s start when a next
chunk exists, otherwise the audio duration; return the relative index of the
first chunk whose range `[start, end)` contains `currentTime`. -/
def findActive (currentTime audioDuration : ℚ) : List TranscriberChunk → Option Nat
  | [] => none
  | c :: rest =>
    let e := c.stop.getD (match rest with
      | [] => audioDuration
      | c' :: _ => c'.start)
    if c.start ≤ currentTime ∧ currentTime < e then some 0
    else (findActive currentTime audioDuration rest).map (· + 1)

/-- Model of `getCurrentUtteranceIndex` (part_000 lines 133-161): `-1` when there is
no data or no chunks; when `isBusy` and `currentTime` is at or past the last
chunk`s start, the last index; otherwise the first chunk whose effective
range contains `currentTime`, else `-1`. -/
def getCurrentUtteranceIndex (transcribedData : Option TranscriberData)
    (currentTime audioDuration : ℚ) : Int :=
  match transcribedData with
  | none => -1
  | some d =>
    match d.chunks.getLast? with
    | none => -1
    | some lastChunk =>
      if d.isBusy = true ∧ lastChunk.start ≤ currentTime then
        ((d.chunks.length - 1 : ℕ) : Int)
      else
        match findActive currentTime audioDuration d.chunks with
        | some i => (i : Int)
        | none => -1

/-- Membership of `currentTime` in the effective range of the chunk at index
`i` of a chunk list, exactly as the scan loop computes it: the effective end
is the chunk`s own `timestamp[1]` when present, otherwise the next chunk`s
start time when `i` is not last, otherwise the audio duration. -/
def inRangeB (chunks : List TranscriberChunk) (audioDuration currentTime : ℚ)
    (i : Nat) : Bool :=
  match chunks.get? i with
  | none => false
  | some c =>
    let e := c.stop.getD (match chunks.get? (i + 1) with
      | none => audioDuration
      | some c' => c'.start)
    decide (c.start ≤ currentTime) && decide (currentTime < e)

/-- Membership of `currentTime` in the effective range of index `i` as the
SPEC claims it (claim C1): the effective end is the next chunk`s start
whenever `i` is not last, and only for the last index the chunk`s own end
time when present, else the audio duration. -/
def inRangeSpecB (chunks : List TranscriberChunk) (audioDuration currentTime : ℚ)
    (i : Nat) : Bool :=
  match chunks.get? i with
  | none => false
  | some c =>
    let e := match chunks.get? (i + 1) with
      | some c' => c'.start
      | none => c.stop.getD audioDuration
    decide (c.start ≤ currentTime) && decide (currentTime < e)

/-- Modelled from the spec wording of claim C1: scan segments in order and
return the first index whose spec-side effective range contains
`currentTime`, else the sentinel `-1`. -/
def activeSegmentIndexSpec (transcribedData : Option TranscriberData)
    (currentTime audioDuration : ℚ) : Int :=
  match transcribedData with
  | none => -1
  | some d =>
    match (List.range d.chunks.length).find?
        (fun i => inRangeSpecB d.chunks audioDuration currentTime i) with
    | some i => (i : Int)
    | none => -1

/-! ### Transcription stream merger (useTranscriber.ts worker message handler) -/

/-- The `isEdited` value carried over from the previous session state at index
`i`: `prevTranscript?.chunks[i]?.isEdited || false` (useTranscriber.ts
lines 114 and 128). -/
def prevEdited (prev : Option TranscriberData) (i : Nat) : Bool :=
  match prev with
  | none => false
  | some d =>
    match d.chunks.get? i with
    | none => false
    | some c => c.isEdited

/-- Positional merge of an incoming chunk list against the previous session
state: text and timestamp come from the update, `isEdited` is carried over
positionally (useTranscriber.ts lines 111-115 and 125-129). -/
def mergeChunks (prev : Option TranscriberData) (news : List RawChunk) :
    List TranscriberChunk :=
  news.mapIdx (fun i c =>
    { text := c.text, timestamp := c.timestamp, isEdited := prevEdited prev i })

/-- The state built by the `update` (partial) case of the worker message
handler (useTranscriber.ts lines 104-117). -/
def applyUpdate (prev : Option TranscriberData) (text : String)
    (news : List RawChunk) : TranscriberData :=
  { isBusy := true
    isModelLoading := false
    text := text
    chunks := mergeChunks prev news
    error := none }

/-- The state built by the `complete` (final) case of the worker message
handler (useTranscriber.ts lines 118-132). -/
def applyComplete (prev : Option TranscriberData) (text : String)
    (news : List RawChunk) : TranscriberData :=
  { isBusy := false
    isModelLoading := false
    text := text
    chunks := mergeChunks prev news
    error := none }

/-- The compatibility hint appended to every engine error message
(useTranscriber.ts line 148). -/
def errorHint : String :=
  " This is most likely because you are using Safari on an M1/M2 Mac. Please try again from Chrome, Firefox, or Edge.\n\nIf this is not the case, please file a bug report."

/-- The state built by the `error` case of the worker message handler
(useTranscriber.ts lines 142-150): spread of the previous state (or an empty
timeline when there was none) with `isBusy`/`isModelLoading` cleared and the
error message attached. -/
def applyError (prev : Option TranscriberData) (message : String) :
    TranscriberData :=
  match prev with
  | some d =>
    { d with isBusy := false, isModelLoading := false
             error := some (message ++ errorHint) }
  | none =>
    { chunks := [], text := "", isBusy := false, isModelLoading := false
      error := some (message ++ errorHint) }

/-- Worker messages that touch the segment timeline. -/
inductive WorkerMsg where
  | update (text : String) (chunks : List RawChunk)
  | complete (text : String) (chunks : List RawChunk)
  | error (message : String)
deriving DecidableEq, Repr

/-- Dispatch of the worker message handler over the timeline-relevant
messages: each of the three cases unconditionally replaces the session state
with the state its handler builds. -/
def applyMsg (prev : Option TranscriberData) : WorkerMsg → Option TranscriberData
  | .update t cs => some (applyUpdate prev t cs)
  | .complete t cs => some (applyComplete prev t cs)
  | .error m => some (applyError prev m)

/-- The fresh empty session state installed by `onInputChange`
(useTranscriber.ts lines 180-188) when a new audio source is selected. -/
def onInputChangeState : TranscriberData :=
  { chunks := [], text := "", isBusy := false, isModelLoading := false
    error := none }

/-! ### Keyboard command routing and the edit session (Transcript component) -/

/-- The keys handled by the Transcript keyboard handlers. -/
inductive Key where
  | space
  | arrowRight
  | arrowLeft
  | enter
  | escape
  | arrowUp
  | arrowDown
  | other
deriving DecidableEq, Repr

/-- Calls issued on the playback transport by the keyboard handler. -/
inductive Effect where
  | play
  | pause
  | seek (t : ℚ)
  | setPlaybackRate (r : ℚ)
deriving DecidableEq, Repr

/-- The Transcript component state touched by the keyboard handlers:
`editingIndex`, `editText` and `playbackSpeed`. -/
structure TranscriptState where
  editingIndex : Option Nat
  editText : String
  playbackSpeed : ℚ
deriving DecidableEq, Repr

/-- Snapshot of the audio element as read by the handler (`paused`). -/
structure AudioElem where
  paused : Bool
deriving DecidableEq, Repr

/-- ArrowUp rate step: `Math.min(4, playbackSpeed + 0.25)` (part_000
line 212). -/
def rateUp (r : ℚ) : ℚ := min 4 (r + 1/4)

/-- ArrowDown rate step: `Math.max(0.25, playbackSpeed - 0.25)` (part_000
line 220). -/
def rateDown (r : ℚ) : ℚ := max (1/4) (r - 1/4)

/-- Model of `handleKeyDown` (part_000 lines 163-226) as a pure function from the
component state and its inputs to the new component state and the list of
transport calls it makes.  Early returns: an active edit session, focus in a
text control, no transcript data, an empty chunk list, or no active segment
all leave the state unchanged with no transport call. -/
def handleKeyDown (s : TranscriptState) (key : Key) (targetIsTextInput : Bool)
    (transcribedData : Option TranscriberData) (currentTime audioDuration : ℚ)
    (audio : Option AudioElem) (hasOnSeek : Bool) :
    TranscriptState × List Effect :=
  if s.editingIndex ≠ none then (s, [])
  else if targetIsTextInput then (s, [])
  else
    match transcribedData with
    | none => (s, [])
    | some d =>
      if d.chunks.isEmpty then (s, [])
      else
        let currentIndex := getCurrentUtteranceIndex (some d) currentTime audioDuration
        if currentIndex = -1 then (s, [])
        else
          match key with
          | .space =>
            match audio with
            | some a => if a.paused then (s, [.play]) else (s, [.pause])
            | none => (s, [])
          | .arrowRight =>
            if currentIndex < (d.chunks.length : Int) - 1 then
              match d.chunks.get? (currentIndex.toNat + 1) with
              | some c => if hasOnSeek then (s, [.seek c.start]) else (s, [])
              | none => (s, [])
            else (s, [])
          | .arrowLeft =>
            if 0 < currentIndex then
              match d.chunks.get? (currentIndex.toNat - 1) with
              | some c => if hasOnSeek then (s, [.seek c.start]) else (s, [])
              | none => (s, [])
            else (s, [])
          | .enter =>
            if s.editingIndex = none ∨ s.editingIndex = some 0 then
              ({ s with editingIndex := some currentIndex.toNat
                        editText := ((d.chunks.get? currentIndex.toNat).map
                          TranscriberChunk.text).getD "" }, [])
            else (s, [])
          | .escape =>
            if s.editingIndex ≠ none then ({ s with editingIndex := none }, [])
            else (s, [])
          | .arrowUp =>
            match audio with
            | some _ =>
              ({ s with playbackSpeed := rateUp s.playbackSpeed },
               [.setPlaybackRate (rateUp s.playbackSpeed)])
            | none => (s, [])
          | .arrowDown =>
            match audio with
            | some _ =>
              ({ s with playbackSpeed := rateDown s.playbackSpeed },
               [.setPlaybackRate (rateDown s.playbackSpeed)])
            | none => (s, [])
          | .other => (s, [])

/-- Commit of an edit session (part_000 lines 232-247): segment
`editingIndex` is replaced by a copy with the draft text and
`isEdited := true`, and the full timeline text is recomputed as the
concatenation of all chunk texts. -/
def commitEdit (d : TranscriberData) (i : Nat) (draft : String) :
    TranscriberData :=
  let newChunks := d.chunks.mapIdx (fun j c =>
    if j = i then { c with text := draft, isEdited := true } else c)
  { d with chunks := newChunks
           text := String.join (newChunks.map TranscriberChunk.text) }

/-- Model of `handleEditKeyDown` (part_000 lines 228-254) as a pure function:
Enter without shift commits the draft and leaves edit mode, Escape leaves
edit mode without touching the timeline, every other key changes nothing. -/
def handleEditKeyDown (s : TranscriptState) (key : Key) (shift : Bool)
    (transcribedData : Option TranscriberData) :
    TranscriptState × Option TranscriberData :=
  if key = .enter ∧ shift = false then
    match s.editingIndex, transcribedData with
    | some i, some d =>
      ({ s with editingIndex := none }, some (commitEdit d i s.editText))
    | _, _ => (s, transcribedData)
  else if key = .escape then
    ({ s with editingIndex := none }, transcribedData)
  else (s, transcribedData)

/-- Draft prefilled on edit entry (part_000 line 200): the text of the chunk
at the active index. -/
def enterEditText (d : TranscriberData) (i : Nat) : String :=
  ((d.chunks.get? i).map TranscriberChunk.text).getD ""

/-- Playback rates reachable from the initial rate 1.0 by ArrowUp and
ArrowDown steps. -/
inductive RateReachable : ℚ → Prop where
  | init : RateReachable 1
  | up {r : ℚ} : RateReachable r → RateReachable (rateUp r)
  | down {r : ℚ} : RateReachable r → RateReachable (rateDown r)

/-! ### Helper lemmas -/

/-- Index lookup through `List.mapIdx`. -/
theorem get?_mapIdx {α β : Type} (f : ℕ → α → β) (l : List α) :
    ∀ i, (l.mapIdx f).get? i = (l.get? i).map (f i) := by
  induction l generalizing f with
  | nil => intro i; simp [List.mapIdx_nil]
  | cons a l ih =>
    intro i
    cases i with
    | zero => simp [List.mapIdx_cons]
    | succ n => rw [List.mapIdx_cons]; exact ih (fun i => f (i + 1)) n

/-- Effective end of the head chunk of a list whose tail is `rest`: the next
chunk`s start when the tail is non-empty, else the audio duration. -/
def headEnd (rest : List TranscriberChunk) (dur : ℚ) : ℚ :=
  match rest with
  | [] => dur
  | c' :: _ => c'.start

/-- The range test of the head of a cons cell, with the effective end spelled
out the way the scan computes it. -/
theorem inRangeB_cons_zero (c : TranscriberChunk) (rest : List TranscriberChunk)
    (dur t : ℚ) :
    inRangeB (c :: rest) dur t 0
      = (decide (c.start ≤ t) && decide (t < c.stop.getD (headEnd rest dur))) := by
  cases rest <;> rfl

/-- The range test at a successor index only looks at the tail. -/
theorem inRangeB_cons_succ (c : TranscriberChunk) (rest : List TranscriberChunk)
    (dur t : ℚ) (i : ℕ) :
    inRangeB (c :: rest) dur t (i + 1) = inRangeB rest dur t i := rfl

/-- Unfolding of the scan loop on a cons cell. -/
theorem findActive_cons (t dur : ℚ) (c : TranscriberChunk)
    (rest : List TranscriberChunk) :
    findActive t dur (c :: rest)
      = if c.start ≤ t ∧ t < c.stop.getD (headEnd rest dur)
        then some 0 else (findActive t dur rest).map (· + 1) := by
  cases rest <;> rfl

/-- The scan loop returns the first index whose effective range contains the
current time, and `none` exactly when no index qualifies. -/
theorem findActive_spec (t dur : ℚ) (l : List TranscriberChunk) :
    (∀ i, findActive t dur l = some i →
      inRangeB l dur t i = true ∧ ∀ j, j < i → inRangeB l dur t j = false)
    ∧ (findActive t dur l = none → ∀ i, inRangeB l dur t i = false) := by
  induction l with
  | nil =>
    refine ⟨fun i h => by simp [findActive] at h, fun _ i => rfl⟩
  | cons c rest ih =>
    have hfa := findActive_cons t dur c rest
    by_cases hc : c.start ≤ t ∧ t < c.stop.getD (headEnd rest dur)
    · rw [if_pos hc] at hfa
      constructor
      · intro i h
        rw [hfa] at h
        obtain rfl : (0 : ℕ) = i := Option.some.inj h
        refine ⟨by simp [inRangeB_cons_zero, hc.1, hc.2], fun j hj => absurd hj (by omega)⟩
      · intro h; rw [hfa] at h; exact absurd h (by simp)
    · rw [if_neg hc] at hfa
      constructor
      · intro i h
        rw [hfa] at h
        cases hr : findActive t dur rest with
        | none => rw [hr] at h; exact absurd h (by simp)
        | some j =>
          rw [hr] at h
          obtain rfl : j + 1 = i := Option.some.inj h
          obtain ⟨h1, h2⟩ := ih.1 j hr
          refine ⟨by rw [inRangeB_cons_succ]; exact h1, fun k hk => ?_⟩
          cases k with
          | zero =>
            simp only [inRangeB_cons_zero, Bool.and_eq_false_iff,
              decide_eq_false_iff_not]
            by_cases ha : c.start ≤ t
            · exact Or.inr fun hb => hc ⟨ha, hb⟩
            · exact Or.inl ha
          | succ m => rw [inRangeB_cons_succ]; exact h2 m (by omega)
      · intro h i
        rw [hfa] at h
        have hr : findActive t dur rest = none := by
          cases hr : findActive t dur rest with
          | none => rfl
          | some j => rw [hr] at h; exact absurd h (by simp)
        cases i with
        | zero =>
          simp only [inRangeB_cons_zero, Bool.and_eq_false_iff,
            decide_eq_false_iff_not]
          by_cases ha : c.start ≤ t
          · exact Or.inr fun hb => hc ⟨ha, hb⟩
          · exact Or.inl ha
        | succ m => rw [inRangeB_cons_succ]; exact ih.2 hr m

/-! ### Claim theorems -/

/-- Concrete timeline used to separate the lookup in the code from the
lookup the spec describes: two closed segments with a gap between the first
segment`s own end time and the start of the next. -/
def exC1 : TranscriberData :=
  { chunks := [⟨"a", (0, some 1), false⟩, ⟨"b", (2, some 3), false⟩]
    text := "ab", isBusy := false, isModelLoading := false, error := none }

/-- C1 counterexample: at `currentTime = 1` the claim`s effective range of
segment 0 is `[0, 2)` (the next segment`s start takes priority), so the claim
demands index 0; the code resolves segment 0`s effective end to its own
stored end time 1 and returns the sentinel `-1`. -/
theorem C1_counterexample :
    getCurrentUtteranceIndex (some exC1) 1 5 = -1
      ∧ inRangeSpecB exC1.chunks 5 1 0 = true
      ∧ activeSegmentIndexSpec (some exC1) 1 5 = 0 := by
  decide

/-- C1 (amended): for every non-streaming timeline and currentTime, the
lookup returns the first index `i` with `currentTime ∈ [start_i, end_i)`,
where `end_i` is the segment`s own end time when present, otherwise the next
segment`s start when `i` is not last, otherwise the audio duration; it
returns `-1` exactly when no index qualifies. -/
theorem C1_active_segment_lookup (d : TranscriberData) (hbusy : d.isBusy = false)
    (t dur : ℚ) :
    (∀ i : ℕ, getCurrentUtteranceIndex (some d) t dur = (i : Int) →
      inRangeB d.chunks dur t i = true ∧ ∀ j, j < i → inRangeB d.chunks dur t j = false)
    ∧ (getCurrentUtteranceIndex (some d) t dur = -1 ↔
        ∀ i, inRangeB d.chunks dur t i = false) := by
  have hspec := findActive_spec t dur d.chunks
  cases hl : d.chunks.getLast? with
  | none =>
    have hnil : d.chunks = [] := List.getLast?_eq_none_iff.mp hl
    have hval : getCurrentUtteranceIndex (some d) t dur = -1 := by
      simp [getCurrentUtteranceIndex, hl]
    refine ⟨fun i hi => ?_, ?_⟩
    · rw [hval] at hi; exact absurd hi (by omega)
    · rw [hval, hnil]
      exact ⟨fun _ i => rfl, fun _ => rfl⟩
  | some lc =>
    have hcond : ¬(d.isBusy = true ∧ lc.start ≤ t) := by simp [hbusy]
    have hval : getCurrentUtteranceIndex (some d) t dur
        = match findActive t dur d.chunks with
          | some i => (i : Int)
          | none => -1 := by
      simp [getCurrentUtteranceIndex, hl, hcond]
    cases hfa : findActive t dur d.chunks with
    | some k =>
      have hval2 : getCurrentUtteranceIndex (some d) t dur = (k : Int) := by
        rw [hval, hfa]
      refine ⟨fun i hi => ?_, ?_, ?_⟩
      · rw [hval2] at hi
        obtain rfl : k = i := by exact_mod_cast hi
        exact hspec.1 k hfa
      · intro h; rw [hval2] at h; exact absurd h (by omega)
      · intro hall
        exact absurd ((hspec.1 k hfa).1) (by simp [hall k])
    | none =>
      have hval2 : getCurrentUtteranceIndex (some d) t dur = -1 := by
        rw [hval, hfa]
      refine ⟨fun i hi => ?_, ?_, ?_⟩
      · rw [hval2] at hi; exact absurd hi (by omega)
      · intro _; exact hspec.2 hfa
      · intro _; exact hval2

/-- C1 witness: a concrete non-streaming timeline at a time inside the first
segment: the lookup characterization applies and the `-1` case is settled. -/
theorem C1_active_segment_lookup_witness :
    exC1.isBusy = false
      ∧ (getCurrentUtteranceIndex (some exC1) 0 5 = -1 ↔
          ∀ i, inRangeB exC1.chunks 5 0 i = false) :=
  ⟨rfl, (C1_active_segment_lookup exC1 rfl 0 5).2⟩

/-- Index lookup through the positional merge. -/
theorem mergeChunks_get? (prev : Option TranscriberData) (news : List RawChunk)
    (k : ℕ) :
    (mergeChunks prev news).get? k
      = (news.get? k).map (fun c =>
          { text := c.text, timestamp := c.timestamp
            isEdited := prevEdited prev k }) :=
  get?_mapIdx _ news k

/-- C2: merging a partial or final update preserves the edited flag of every
previously edited segment whose index still exists in the update, and yields
an unedited segment at every index with no previously edited segment. -/
theorem C2_edit_preservation (prev : TranscriberData) (s t : String)
    (news : List RawChunk) (k : ℕ) (hk : k < news.length) :
    (∃ c, (applyUpdate (some prev) s news).chunks.get? k = some c ∧
      ((∃ pc, prev.chunks.get? k = some pc ∧ pc.isEdited = true) → c.isEdited = true) ∧
      ((∀ pc, prev.chunks.get? k = some pc → pc.isEdited = false) → c.isEdited = false))
    ∧ (∃ c, (applyComplete (some prev) t news).chunks.get? k = some c ∧
      ((∃ pc, prev.chunks.get? k = some pc ∧ pc.isEdited = true) → c.isEdited = true) ∧
      ((∀ pc, prev.chunks.get? k = some pc → pc.isEdited = false) → c.isEdited = false)) := by
  obtain ⟨nc, hnc⟩ : ∃ nc, news.get? k = some nc := by
    cases h : news.get? k with
    | none => exact absurd (List.get?_eq_none.mp h) (by omega)
    | some nc => exact ⟨nc, rfl⟩
  have hedited : ∀ c : TranscriberChunk, c.isEdited = prevEdited (some prev) k →
      ((∃ pc, prev.chunks.get? k = some pc ∧ pc.isEdited = true) → c.isEdited = true) ∧
      ((∀ pc, prev.chunks.get? k = some pc → pc.isEdited = false) → c.isEdited = false) := by
    intro c hc
    have hpeq : prevEdited (some prev) k
        = match prev.chunks.get? k with
          | none => false
          | some pc => pc.isEdited := rfl
    constructor
    · rintro ⟨pc, hpc, hpe⟩
      rw [hc, hpeq, hpc]
      exact hpe
    · intro hall
      rw [hc, hpeq]
      cases hpc : prev.chunks.get? k with
      | none => rfl
      | some pc => exact hall pc hpc
  have hget : (mergeChunks (some prev) news).get? k
      = some ⟨nc.text, nc.timestamp, prevEdited (some prev) k⟩ := by
    rw [mergeChunks_get?, hnc]; rfl
  exact ⟨⟨⟨nc.text, nc.timestamp, prevEdited (some prev) k⟩, hget, hedited _ rfl⟩,
    ⟨⟨nc.text, nc.timestamp, prevEdited (some prev) k⟩, hget, hedited _ rfl⟩⟩

/-- Concrete previous timeline with an edited segment at index 0, used for
the C2 witness. -/
def exC2 : TranscriberData :=
  { chunks := [⟨"old", (0, some 1), true⟩], text := "old"
    isBusy := true, isModelLoading := false, error := none }

/-- C2 witness: merging at a concrete edited timeline. -/
theorem C2_edit_preservation_witness :
    0 < [(⟨"new", ((0 : ℚ), some 1)⟩ : RawChunk)].length
      ∧ (∃ c, (applyUpdate (some exC2) "new"
          [(⟨"new", ((0 : ℚ), some 1)⟩ : RawChunk)]).chunks.get? 0 = some c ∧
        ((∃ pc, exC2.chunks.get? 0 = some pc ∧ pc.isEdited = true) → c.isEdited = true) ∧
        ((∀ pc, exC2.chunks.get? 0 = some pc → pc.isEdited = false) → c.isEdited = false)) :=
  ⟨by decide,
    (C2_edit_preservation exC2 "new" "new" [⟨"new", ((0 : ℚ), some 1)⟩] 0 (by decide)).1⟩

/-- Concrete streaming timeline used for the C3 witness. -/
def exC3 : TranscriberData :=
  { chunks := [⟨"a", (0, some 2), false⟩, ⟨"b", (5, none), false⟩]
    text := "ab", isBusy := true, isModelLoading := false, error := none }

/-- C3: while the engine is streaming (isBusy), any currentTime at or past
the start of the last segment resolves to the last index, regardless of the
nominal end boundary of the last segment. -/
theorem C3_streaming_override (d : TranscriberData) (lc : TranscriberChunk)
    (t dur : ℚ) (hl : d.chunks.getLast? = some lc) (hb : d.isBusy = true)
    (hs : lc.start ≤ t) :
    getCurrentUtteranceIndex (some d) t dur = ((d.chunks.length - 1 : ℕ) : Int) := by
  simp [getCurrentUtteranceIndex, hl, hb, hs]

/-- C3 witness: a streaming timeline whose last segment starts at 5, probed
at time 100, far past every nominal boundary. -/
theorem C3_streaming_override_witness :
    exC3.chunks.getLast? = some ⟨"b", (5, none), false⟩
      ∧ exC3.isBusy = true
      ∧ (5 : ℚ) ≤ 100
      ∧ getCurrentUtteranceIndex (some exC3) 100 7 = ((exC3.chunks.length - 1 : ℕ) : Int) :=
  ⟨rfl, rfl, by decide,
    C3_streaming_override exC3 ⟨"b", (5, none), false⟩ 100 7 rfl rfl (by decide)⟩

/-- Concrete timeline used for the C4 witness. -/
def exC4 : TranscriberData :=
  { chunks := [⟨"hi", (0, some 1), false⟩, ⟨"there", (1, none), false⟩]
    text := "hithere", isBusy := false, isModelLoading := false, error := none }

/-- C4: entering edit mode on segment i prefills the draft with its text;
committing a draft T yields segment i with text T, the edited flag set and
unchanged timestamps, with the full timeline text recomputed as the
concatenation of all segment texts; cancelling with Escape leaves the
timeline untouched. -/
theorem C4_commit_roundtrip (d : TranscriberData) (i : ℕ) (c : TranscriberChunk)
    (hc : d.chunks.get? i = some c) (T : String) (r : ℚ) (sh : Bool) :
    enterEditText d i = c.text
      ∧ (∃ c', (commitEdit d i T).chunks.get? i = some c'
          ∧ c'.text = T ∧ c'.isEdited = true ∧ c'.timestamp = c.timestamp)
      ∧ (commitEdit d i T).text
          = String.join ((commitEdit d i T).chunks.map TranscriberChunk.text)
      ∧ handleEditKeyDown ⟨some i, T, r⟩ .enter false (some d)
          = (⟨none, T, r⟩, some (commitEdit d i T))
      ∧ handleEditKeyDown ⟨some i, T, r⟩ .escape sh (some d)
          = (⟨none, T, r⟩, some d) := by
  refine ⟨?_, ⟨{ c with text := T, isEdited := true }, ?_, rfl, rfl, rfl⟩,
    rfl, rfl, rfl⟩
  · unfold enterEditText; rw [hc]; rfl
  · show (d.chunks.mapIdx _).get? i = _
    rw [get?_mapIdx, hc]
    simp

/-- C4 witness: committing the draft "yo" on segment 0 of a concrete
timeline. -/
theorem C4_commit_roundtrip_witness :
    exC4.chunks.get? 0 = some ⟨"hi", (0, some 1), false⟩
      ∧ (∃ c', (commitEdit exC4 0 "yo").chunks.get? 0 = some c'
          ∧ c'.text = "yo" ∧ c'.isEdited = true
          ∧ c'.timestamp = (⟨"hi", ((0 : ℚ), some 1), false⟩ : TranscriberChunk).timestamp) :=
  ⟨rfl, ((C4_commit_roundtrip exC4 0 ⟨"hi", (0, some 1), false⟩ rfl "yo" 1 false).2).1⟩

/-- Projection of the merged chunk list onto text and timestamps: the merge
always takes both from the incoming update. -/
theorem mergeChunks_map_proj (prev : Option TranscriberData)
    (news : List RawChunk) :
    (mergeChunks prev news).map (fun c => (c.text, c.timestamp))
      = news.map (fun c => (c.text, c.timestamp)) := by
  apply List.ext_get?
  intro n
  rw [List.get?_eq_getElem?, List.get?_eq_getElem?, List.getElem?_map,
    List.getElem?_map, ← List.get?_eq_getElem?, ← List.get?_eq_getElem?,
    mergeChunks_get?]
  cases news.get? n <;> rfl

/-- The session state reached by processing a final update, used in the C5
counterexample. -/
def exC5 : TranscriberData := applyComplete none "a" [⟨"a", (0, some 1)⟩]

/-- C5 counterexample: after the final update that produced `exC5`
(timeline text "a"), a subsequently arriving partial update is still merged
and replaces the timeline text with "b" — the timeline is not frozen. -/
theorem C5_counterexample :
    (applyMsg (some exC5) (.update "b" [⟨"b", ((0 : ℚ), some 1)⟩])).map
        TranscriberData.text = some "b"
      ∧ exC5.text = "a" := ⟨rfl, rfl⟩

/-- C5 (amended): processing a final update or an error does not freeze the
timeline: a subsequently arriving partial or final update is merged exactly
as in any other state, overwriting every segment text and timestamp with the
update values and replacing the full text; the timeline is discarded (reset
to empty) only when a new audio source is selected (`onInputChange`) or
transcription is restarted. -/
theorem C5_no_freeze (s : Option TranscriberData) (t : String)
    (cs : List RawChunk) :
    ((applyUpdate s t cs).chunks.map (fun c => (c.text, c.timestamp))
        = cs.map (fun c => (c.text, c.timestamp))
      ∧ (applyUpdate s t cs).text = t)
    ∧ ((applyComplete s t cs).chunks.map (fun c => (c.text, c.timestamp))
        = cs.map (fun c => (c.text, c.timestamp))
      ∧ (applyComplete s t cs).text = t)
    ∧ onInputChangeState.chunks = [] ∧ onInputChangeState.text = "" :=
  ⟨⟨mergeChunks_map_proj s cs, rfl⟩, ⟨mergeChunks_map_proj s cs, rfl⟩, rfl, rfl⟩

/-- C8: processing an error signal leaves the timeline contents (chunks and
full text) unchanged, clears the busy and loading flags, and attaches an
error message that starts with the engine message. -/
theorem C8_error_atomicity (d : TranscriberData) (m : String) :
    applyMsg (some d) (.error m) = some (applyError (some d) m)
      ∧ (applyError (some d) m).chunks = d.chunks
      ∧ (applyError (some d) m).text = d.text
      ∧ (applyError (some d) m).isBusy = false
      ∧ (applyError (some d) m).isModelLoading = false
      ∧ ∃ tail, (applyError (some d) m).error = some (m ++ tail) :=
  ⟨rfl, rfl, rfl, rfl, rfl, ⟨errorHint, rfl⟩⟩

/-- The carried-over edited flag after a final merge equals the one carried
over before it, at every index the update still covers. -/
theorem prevEdited_applyComplete (prev : Option TranscriberData) (t : String)
    (cs : List RawChunk) (n : ℕ) (hn : n < cs.length) :
    prevEdited (some (applyComplete prev t cs)) n = prevEdited prev n := by
  obtain ⟨c, hc⟩ : ∃ c, cs.get? n = some c := by
    cases h : cs.get? n with
    | none => exact absurd (List.get?_eq_none.mp h) (by omega)
    | some c => exact ⟨c, rfl⟩
  have hget : (applyComplete prev t cs).chunks.get? n
      = some ⟨c.text, c.timestamp, prevEdited prev n⟩ := by
    show (mergeChunks prev cs).get? n = _
    rw [mergeChunks_get?, hc]; rfl
  have hpeq : prevEdited (some (applyComplete prev t cs)) n
      = match (applyComplete prev t cs).chunks.get? n with
        | none => false
        | some c => c.isEdited := rfl
  rw [hpeq, hget]

/-- C9: applying the same final update twice produces the same session state
(chunks, text, edited flags, busy and loading flags) as applying it once. -/
theorem C9_idempotent_final (prev : Option TranscriberData) (t : String)
    (cs : List RawChunk) :
    applyMsg (applyMsg prev (.complete t cs)) (.complete t cs)
      = applyMsg prev (.complete t cs) := by
  show some (applyComplete (some (applyComplete prev t cs)) t cs)
      = some (applyComplete prev t cs)
  have hch : mergeChunks (some (applyComplete prev t cs)) cs
      = mergeChunks prev cs := by
    apply List.ext_get?
    intro n
    rw [mergeChunks_get?, mergeChunks_get?]
    cases hn : cs.get? n with
    | none => rfl
    | some c =>
      have hlt : n < cs.length := by
        by_contra h
        rw [List.get?_eq_none.mpr (by omega)] at hn
        exact absurd hn (by simp)
      rw [Option.map_some', Option.map_some',
        prevEdited_applyComplete prev t cs n hlt]
  unfold applyComplete at hch ⊢
  rw [hch]

/-- Session state carrying an error message, used for the C10 witness. -/
def exC10 : TranscriberData :=
  { chunks := [], text := "", isBusy := false, isModelLoading := false
    error := some "boom" }

/-- C10: applying a partial or final update to a session state that carries
an error message yields a state with no error message — the handlers build
the new state without carrying the error field forward. -/
theorem C10_error_cleared (d : TranscriberData) (e : String)
    (_he : d.error = some e) (t : String) (cs : List RawChunk) :
    (applyUpdate (some d) t cs).error = none
      ∧ (applyComplete (some d) t cs).error = none :=
  ⟨rfl, rfl⟩

/-- C10 witness: a concrete errored state loses its error on the next
update. -/
theorem C10_error_cleared_witness :
    exC10.error = some "boom"
      ∧ (applyUpdate (some exC10) "x" []).error = none
      ∧ (applyComplete (some exC10) "x" []).error = none :=
  ⟨rfl, (C10_error_cleared exC10 "boom" rfl "x" []).1,
    (C10_error_cleared exC10 "boom" rfl "x" []).2⟩

/-- C6: while no edit session is active, an ArrowRight, ArrowLeft, Enter or
Space key event with no active segment (sentinel -1: empty timeline, missing
data, or currentTime outside every effective range) changes no component
state and issues no transport call. -/
theorem C6_keyboard_guard (s : TranscriptState) (key : Key) (tgt : Bool)
    (d? : Option TranscriberData) (t dur : ℚ) (audio : Option AudioElem)
    (hsk : Bool)
    (_hkey : key = .arrowRight ∨ key = .arrowLeft ∨ key = .enter ∨ key = .space)
    (hedit : s.editingIndex = none)
    (hact : getCurrentUtteranceIndex d? t dur = -1) :
    handleKeyDown s key tgt d? t dur audio hsk = (s, []) := by
  cases d? with
  | none => simp [handleKeyDown, hedit]
  | some d =>
    by_cases hemp : d.chunks.isEmpty
    · simp [handleKeyDown, hedit, hemp]
    · simp [handleKeyDown, hedit, hemp, hact]

/-- C6 witness: Space with no transcript data at all is a no-op. -/
theorem C6_keyboard_guard_witness :
    getCurrentUtteranceIndex none 0 0 = -1
      ∧ handleKeyDown ⟨none, "", 1⟩ .space false none 0 0 none false
          = (⟨none, "", 1⟩, []) :=
  ⟨rfl, C6_keyboard_guard ⟨none, "", 1⟩ .space false none 0 0 none false
    (Or.inr (Or.inr (Or.inr rfl))) rfl rfl⟩

/-- Empty timeline used in the C7 counterexample. -/
def exC7 : TranscriberData :=
  { chunks := [], text := "", isBusy := false, isModelLoading := false
    error := none }

/-- C7 counterexample: the edit session is Idle and the transport is
available (a playing audio element), yet ArrowUp changes nothing — the
handler returns before the rate branch because no segment is active (empty
timeline), so the playback rate stays 1 instead of increasing by 0.25. -/
theorem C7_counterexample :
    handleKeyDown ⟨none, "", 1⟩ .arrowUp false (some exC7) 0 5 (some ⟨true⟩) true
      = (⟨none, "", 1⟩, []) := rfl

/-- Timeline with an active segment at time 0, used for the C7 witness. -/
def exC7b : TranscriberData :=
  { chunks := [⟨"a", (0, some 2), false⟩], text := "a"
    isBusy := false, isModelLoading := false, error := none }

/-- C7 (amended): when the edit session is Idle, focus is outside text
inputs, a segment is active and the transport is available, ArrowUp sets the
rate to `min 4 (rate + 1/4)` and ArrowDown to `max (1/4) (rate - 1/4)`;
consequently every rate reachable from the initial 1.0 stays within
`[1/4, 4]` and is a multiple of `1/4`. -/
theorem C7_rate_adjustment :
    (∀ (s : TranscriptState) (d? : Option TranscriberData) (t dur : ℚ)
        (a : AudioElem) (hsk : Bool),
      s.editingIndex = none →
      getCurrentUtteranceIndex d? t dur ≠ -1 →
      handleKeyDown s .arrowUp false d? t dur (some a) hsk
          = ({ s with playbackSpeed := rateUp s.playbackSpeed },
             [.setPlaybackRate (rateUp s.playbackSpeed)])
        ∧ handleKeyDown s .arrowDown false d? t dur (some a) hsk
          = ({ s with playbackSpeed := rateDown s.playbackSpeed },
             [.setPlaybackRate (rateDown s.playbackSpeed)]))
    ∧ ∀ r : ℚ, RateReachable r → 1/4 ≤ r ∧ r ≤ 4 ∧ ∃ n : ℕ, r = n * (1/4) := by
  constructor
  · intro s d? t dur a hsk hedit hact
    cases d? with
    | none => exact absurd rfl hact
    | some d =>
      have hemp : d.chunks.isEmpty = false := by
        cases hemp : d.chunks.isEmpty
        · rfl
        · exfalso
          apply hact
          have hnil : d.chunks = [] := List.isEmpty_iff.mp hemp
          simp [getCurrentUtteranceIndex, hnil]
      constructor <;> simp [handleKeyDown, hedit, hemp, hact]
  · intro r h
    induction h with
    | init => exact ⟨by norm_num, by norm_num, 4, by norm_num⟩
    | @up r hr ih =>
      obtain ⟨h1, h2, n, hn⟩ := ih
      refine ⟨le_min (by norm_num) (by linarith), min_le_left _ _, ?_⟩
      rcases le_total (r + 1/4) 4 with hle | hle
      · exact ⟨n + 1, by rw [rateUp, min_eq_right hle, hn]; push_cast; ring⟩
      · exact ⟨16, by rw [rateUp, min_eq_left hle]; norm_num⟩
    | @down r hr ih =>
      obtain ⟨h1, h2, n, hn⟩ := ih
      refine ⟨le_max_left _ _, max_le (by norm_num) (by linarith), ?_⟩
      rcases le_total (r - 1/4) (1/4) with hle | hle
      · exact ⟨1, by rw [rateDown, max_eq_left hle]; norm_num⟩
      · have h4 : (1 : ℚ) ≤ (n : ℚ) := by
          rw [hn] at h1
          linarith
        have hn1 : 1 ≤ n := by exact_mod_cast h4
        refine ⟨n - 1, ?_⟩
        rw [rateDown, max_eq_right hle, hn]
        push_cast [hn1]
        ring

/-- C7 witness: ArrowUp with an active segment at rate 1, and the rate
invariant instantiated at the initial rate. -/
theorem C7_rate_adjustment_witness :
    (⟨none, "", 1⟩ : TranscriptState).editingIndex = none
      ∧ getCurrentUtteranceIndex (some exC7b) 0 5 ≠ -1
      ∧ handleKeyDown ⟨none, "", 1⟩ .arrowUp false (some exC7b) 0 5
          (some ⟨true⟩) true = (⟨none, "", rateUp 1⟩, [.setPlaybackRate (rateUp 1)])
      ∧ (1/4 ≤ (1 : ℚ) ∧ (1 : ℚ) ≤ 4 ∧ ∃ n : ℕ, (1 : ℚ) = n * (1/4)) :=
  ⟨rfl, by decide,
    (C7_rate_adjustment.1 ⟨none, "", 1⟩ (some exC7b) 0 5 ⟨true⟩ true rfl
      (by decide)).1,
    C7_rate_adjustment.2 1 RateReachable.init⟩

end WhisperWeb
